import Mathlib

/-!
# Verification of the Fastscape landscape-evolution simulator

The repository's single source file, `fastscape.py`, is a thin wrapper that
builds a configuration (grid sizes, spacings, stream-power / diffusion /
uplift coefficients, clock) and delegates the simulation to an external
landscape-evolution engine.  The wrapper's configuration construction is
embedded below from the source; the engine itself (grid geometry, flow
routing with pit resolution, stream-power erosion, hillslope diffusion,
uplift, time stepping) is not part of the repository and is modelled from
the specification, as indicated on each definition.

All arithmetic is over `ℚ` so every definition is executable.
-/

namespace Fastscape

/-- Modelled from the spec (§3 Data Model, Grid): a regular 2D mesh with
cell counts `xSize × ySize` and uniform spacings `dx, dy`. -/
structure Grid where
  xSize : ℕ
  ySize : ℕ
  dx : ℚ
  dy : ℚ
deriving DecidableEq, Repr

/-- A cell index: (row, column). -/
abbrev Idx (g : Grid) := Fin g.ySize × Fin g.xSize

/-- An elevation field over the grid. -/
abbrev Fld (g : Grid) := Idx g → ℚ

/-- Total number of cells of the grid. -/
def cellCount (g : Grid) : ℕ := g.ySize * g.xSize

/-- The surface area `dx·dy` of a single cell. -/
def cellArea (g : Grid) : ℚ := g.dx * g.dy

/-- Modelled from the spec (§3, Grid): boundary classification.  A cell is a
fixed-edge (boundary) cell iff it lies on one of the four edges of the grid. -/
def isBoundary (g : Grid) (p : Idx g) : Bool :=
  decide (p.1.val = 0) || decide (p.1.val = g.ySize - 1) ||
  decide (p.2.val = 0) || decide (p.2.val = g.xSize - 1)

/-- The orthogonal (4-connected) neighbours of a cell, with bounds checks. -/
def nbrs (g : Grid) (p : Idx g) : List (Idx g) :=
  (if h : 0 < p.1.val then
    [(⟨p.1.val - 1, Nat.lt_of_le_of_lt (Nat.sub_le _ _) p.1.isLt⟩, p.2)] else []) ++
  (if h : p.1.val + 1 < g.ySize then [(⟨p.1.val + 1, h⟩, p.2)] else []) ++
  (if h : 0 < p.2.val then
    [(p.1, ⟨p.2.val - 1, Nat.lt_of_le_of_lt (Nat.sub_le _ _) p.2.isLt⟩)] else []) ++
  (if h : p.2.val + 1 < g.xSize then [(p.1, ⟨p.2.val + 1, h⟩)] else [])

/-- Distance between two cells, weighting row offsets by `dy` and column
offsets by `dx`; for orthogonal neighbours this is the neighbour distance
(`dx` or `dy`). -/
def cellDist (g : Grid) (p q : Idx g) : ℚ :=
  (((p.1.val : ℤ) - q.1.val).natAbs : ℚ) * g.dy +
  (((p.2.val : ℤ) - q.2.val).natAbs : ℚ) * g.dx

/-- Slope from `p` down to `q` (positive when `q` is lower). -/
def slope (g : Grid) (z : Fld g) (p q : Idx g) : ℚ :=
  (z p - z q) / cellDist g p q

/-- Modelled from the spec (§4.2 step 1): among the listed neighbours,
select a strictly lower one with the steepest descending slope (`none`
when the cell has no strictly lower neighbour, i.e. it is a pit). -/
def bestNbr (g : Grid) (z : Fld g) (p : Idx g) : List (Idx g) → Option (Idx g)
  | [] => none
  | q :: qs =>
    match bestNbr g z p qs with
    | none => if z q < z p then some q else none
    | some r => if z q < z p ∧ slope g z p r < slope g z p q then some q else some r

/-- Modelled from the spec (§4.2 step 1): steepest-descent receiver.
Boundary cells are their own receiver (outlets); an interior cell with no
strictly lower neighbour is its own receiver (an unresolved pit). -/
def recvInit (g : Grid) (z : Fld g) (p : Idx g) : Idx g :=
  if isBoundary g p then p else (bestNbr g z p (nbrs g p)).getD p

/-- Fueled test: does following receivers from `p` hit a boundary cell
within `fuel` hops? -/
def drainsF (g : Grid) (recv : Idx g → Idx g) : ℕ → Idx g → Bool
  | 0, p => isBoundary g p
  | fuel + 1, p => isBoundary g p || drainsF g recv fuel (recv p)

/-- Following receivers from `p` eventually reaches a boundary cell. -/
def Drains (g : Grid) (recv : Idx g → Idx g) (p : Idx g) : Prop :=
  ∃ j : ℕ, isBoundary g (recv^[j] p) = true

/-- Fueled test: does following receivers from `d` pass through `c` within
`fuel` hops? -/
def reachB (g : Grid) (recv : Idx g → Idx g) : ℕ → Idx g → Idx g → Bool
  | 0, d, c => decide (d = c)
  | fuel + 1, d, c => decide (d = c) || reachB g recv fuel (recv d) c

/-- Follow receivers from `p` until a self-receiving cell is found
(or the fuel runs out). -/
def chase (g : Grid) (recv : Idx g → Idx g) : ℕ → Idx g → Idx g
  | 0, p => p
  | fuel + 1, p => if recv p = p then p else chase g recv fuel (recv p)

/-- All cells of the grid as a list. -/
def allCells (g : Grid) : List (Idx g) :=
  (List.finRange g.ySize).flatMap fun i => (List.finRange g.xSize).map fun j => (i, j)

/-- The set of cells that do not yet drain to the boundary. -/
def undrainedSet (g : Grid) (recv : Idx g → Idx g) : Finset (Idx g) :=
  Finset.univ.filter fun p => drainsF g recv (cellCount g) p = false

/-- First element minimising `f` in a list (earlier elements win ties). -/
def chooseMin {α : Type} (f : α → ℚ) : List α → Option α
  | [] => none
  | x :: xs =>
    match chooseMin f xs with
    | none => some x
    | some y => if f x ≤ f y then some x else some y

/-- Modelled from the spec (§4.2 step 2): the candidate pass edges, i.e.
pairs `(a, b)` of adjacent cells where `a` does not yet drain to the
boundary and `b` does. -/
def candidatePairs (g : Grid) (recv : Idx g → Idx g) : List (Idx g × Idx g) :=
  (allCells g).flatMap fun a =>
    if drainsF g recv (cellCount g) a then []
    else ((nbrs g a).filter fun b => drainsF g recv (cellCount g) b).map fun b => (a, b)

/-- Modelled from the spec (§4.2 step 2): one basin merge.  Among all pass
edges out of the still-undrained region, pick the one with the lowest pass
elevation `max (z a) (z b)` and reconnect the pit of `a`'s depression to the
cell `b` across the pass.  When every cell already drains there is no
candidate and the receiver map is returned unchanged. -/
def resolveStep (g : Grid) (z : Fld g) (recv : Idx g → Idx g) : Idx g → Idx g :=
  match chooseMin (fun ab => max (z ab.1) (z ab.2)) (candidatePairs g recv) with
  | none => recv
  | some (a, b) => Function.update recv (chase g recv (cellCount g) a) b

/-- Modelled from the spec (§4.2): full flow routing — steepest-descent
receivers followed by repeated basin merging until every cell has an
outflow path to the boundary (at most one merge per cell is ever needed). -/
def routeFlow (g : Grid) (z : Fld g) : Idx g → Idx g :=
  (resolveStep g z)^[cellCount g] (recvInit g z)

/-- The donors of a cell: the distinct cells whose receiver it is. -/
def donorsOf (g : Grid) (recv : Idx g → Idx g) (c : Idx g) : Finset (Idx g) :=
  Finset.univ.filter fun d => recv d = c ∧ d ≠ c

/-- Modelled from the spec (§3, FlowNetwork / §4.2 step 4): fueled drainage
area accumulation — the area of the cell itself plus the sum of the drainage
areas of all cells that flow into it. -/
def areaF (g : Grid) (recv : Idx g → Idx g) : ℕ → Idx g → ℚ
  | 0, _ => cellArea g
  | fuel + 1, c => cellArea g + (donorsOf g recv c).sum (areaF g recv fuel)

/-- Drainage area of a cell (the accumulation run with enough fuel to cover
every donor chain). -/
def drainage (g : Grid) (recv : Idx g → Idx g) (c : Idx g) : ℚ :=
  areaF g recv (cellCount g) c

/-- Modelled from the spec (§4.3): fueled single-sweep implicit stream-power
update for `n = 1`.  `G c` is the erosion efficiency `K·A(c)^m`; a cell's new
elevation is solved from the already-updated elevation of its receiver:
`z_new = (z_old + f·z_r_new) / (1 + f)` with `f = G·dt/d`. -/
def erode (g : Grid) (recv : Idx g → Idx g) (G : Idx g → ℚ) (dt : ℚ) (z : Fld g) :
    ℕ → Idx g → ℚ
  | 0, c => z c
  | fuel + 1, c =>
    if recv c = c then z c
    else
      (z c + G c * dt / cellDist g c (recv c) * erode g recv G dt z fuel (recv c)) /
        (1 + G c * dt / cellDist g c (recv c))

/-- Modelled from the spec (§4.3): the erosion solver, applied with enough
fuel for every receiver chain (cells are thereby updated from the outlets
upward: each cell's value is solved from its receiver's updated value). -/
def erosionApply (g : Grid) (recv : Idx g → Idx g) (G : Idx g → ℚ) (dt : ℚ)
    (z : Fld g) : Fld g :=
  fun c => erode g recv G dt z (cellCount g) c

/-- Modelled from the spec (§4.3): the stream-power erosion efficiency
`K·A^m` per cell (integer exponent; the non-integer default `m = 0.4` of the
reference configuration denotes a real-valued power that has no exact
rational counterpart, so dynamical theorems below either quantify over the
exponent or set `K = 0`). -/
def spowerG (g : Grid) (recv : Idx g → Idx g) (kSp : ℚ) (m : ℕ) : Idx g → ℚ :=
  fun c => kSp * drainage g recv c ^ m

/-- Elevation at integer coordinates (0 outside the grid). -/
def zAt (g : Grid) (z : Fld g) (i j : ℕ) : ℚ :=
  if h : i < g.ySize ∧ j < g.xSize then z (⟨i, h.1⟩, ⟨j, h.2⟩) else 0

/-- Forward-elimination sweep of the Thomas algorithm for a constant
tridiagonal system (sub-diagonal `a`, diagonal `b`, super-diagonal `c`);
carries the previous modified coefficients `(cp, dp)`. -/
def thomasFwd (a b c : ℚ) : List ℚ → ℚ → ℚ → List (ℚ × ℚ)
  | [], _, _ => []
  | d :: ds, cp, dp =>
    let den := b - a * cp
    let c1 := c / den
    let d1 := (d - a * dp) / den
    (c1, d1) :: thomasFwd a b c ds c1 d1

/-- One step of back-substitution: prepend the solution of the current row
given the solutions of all later rows. -/
def backCons (ci di : ℚ) : List ℚ → List ℚ
  | [] => [di]
  | x :: xs => (di - ci * x) :: x :: xs

/-- Back-substitution sweep of the Thomas algorithm. -/
def backSub : List (ℚ × ℚ) → List ℚ
  | [] => []
  | cd :: tl => backCons cd.1 cd.2 (backSub tl)

/-- Thomas algorithm: solve the constant-coefficient tridiagonal system with
sub-diagonal `a`, diagonal `b`, super-diagonal `c` and right-hand side `d`. -/
def thomas (a b c : ℚ) (d : List ℚ) : List ℚ :=
  backSub (thomasFwd a b c d 0 0)

/-- Diffusion number in x: `kd·dt/dx²`. -/
def rXc (g : Grid) (kd dt : ℚ) : ℚ := kd * dt / g.dx ^ 2

/-- Diffusion number in y: `kd·dt/dy²`. -/
def rYc (g : Grid) (kd dt : ℚ) : ℚ := kd * dt / g.dy ^ 2

/-- Right-hand side of the implicit x-direction sweep for interior row `i`:
the current elevations, with the fixed Dirichlet boundary columns folded into
the first and last interior entries. -/
def rowRhs (g : Grid) (kd dt : ℚ) (z : Fld g) (i : ℕ) : List ℚ :=
  (List.range (g.xSize - 2)).map fun t =>
    zAt g z i (t + 1) + (if t = 0 then rXc g kd dt * zAt g z i 0 else 0) +
      (if t = g.xSize - 3 then rXc g kd dt * zAt g z i (g.xSize - 1) else 0)

/-- Modelled from the spec (§4.4): implicit x-direction half of the
alternating-direction diffusion solve; each interior row is an independent
tridiagonal solve, boundary cells are never updated. -/
def phaseX (g : Grid) (kd dt : ℚ) (z : Fld g) : Fld g := fun p =>
  if 0 < p.1.val ∧ p.1.val < g.ySize - 1 ∧ 0 < p.2.val ∧ p.2.val < g.xSize - 1 then
    (thomas (-(rXc g kd dt)) (1 + 2 * rXc g kd dt) (-(rXc g kd dt))
      (rowRhs g kd dt z p.1.val)).getD (p.2.val - 1) 0
  else z p

/-- Right-hand side of the implicit y-direction sweep for interior column `j`. -/
def colRhs (g : Grid) (kd dt : ℚ) (z : Fld g) (j : ℕ) : List ℚ :=
  (List.range (g.ySize - 2)).map fun t =>
    zAt g z (t + 1) j + (if t = 0 then rYc g kd dt * zAt g z 0 j else 0) +
      (if t = g.ySize - 3 then rYc g kd dt * zAt g z (g.ySize - 1) j else 0)

/-- Modelled from the spec (§4.4): implicit y-direction half of the
alternating-direction diffusion solve. -/
def phaseY (g : Grid) (kd dt : ℚ) (z : Fld g) : Fld g := fun p =>
  if 0 < p.1.val ∧ p.1.val < g.ySize - 1 ∧ 0 < p.2.val ∧ p.2.val < g.xSize - 1 then
    (thomas (-(rYc g kd dt)) (1 + 2 * rYc g kd dt) (-(rYc g kd dt))
      (colRhs g kd dt z p.2.val)).getD (p.1.val - 1) 0
  else z p

/-- Modelled from the spec (§4.4): the hillslope diffusion solver — an
x-direction implicit sweep followed by a y-direction implicit sweep, both
with Dirichlet boundary conditions. -/
def diffusionApply (g : Grid) (kd dt : ℚ) (z : Fld g) : Fld g :=
  phaseY g kd dt (phaseX g kd dt z)

/-- Discrete mass flux through the left/right boundary faces during the
x-direction sweep (the flux the scheme sends from the interior into the
fixed boundary columns). -/
def xExchange (g : Grid) (kd dt : ℚ) (z : Fld g) : ℚ :=
  ((List.range (g.ySize - 2)).map fun t =>
    rXc g kd dt * (zAt g (phaseX g kd dt z) (t + 1) 1 - zAt g z (t + 1) 0) +
    rXc g kd dt *
      (zAt g (phaseX g kd dt z) (t + 1) (g.xSize - 2) - zAt g z (t + 1) (g.xSize - 1))).sum

/-- Discrete mass flux through the top/bottom boundary faces during the
y-direction sweep applied to the field `w`. -/
def yExchange (g : Grid) (kd dt : ℚ) (w : Fld g) : ℚ :=
  ((List.range (g.xSize - 2)).map fun t =>
    rYc g kd dt * (zAt g (phaseY g kd dt w) 1 (t + 1) - zAt g w 0 (t + 1)) +
    rYc g kd dt *
      (zAt g (phaseY g kd dt w) (g.ySize - 2) (t + 1) - zAt g w (g.ySize - 1) (t + 1))).sum

/-- Total discrete mass exchanged with the fixed boundary cells during one
diffusion step. -/
def diffusionExchange (g : Grid) (kd dt : ℚ) (z : Fld g) : ℚ :=
  xExchange g kd dt z + yExchange g kd dt (phaseX g kd dt z)

/-- Total elevation mass of a field (sum over all cells, row by row). -/
def totalMass (g : Grid) (z : Fld g) : ℚ :=
  ((List.range g.ySize).map fun i =>
    ((List.range g.xSize).map fun j => zAt g z i j).sum).sum

/-- Modelled from the spec (§4.5): uplift adds `u·dt` to every interior
cell; boundary cells receive no uplift. -/
def upliftApply (g : Grid) (u dt : ℚ) (z : Fld g) : Fld g := fun p =>
  if isBoundary g p then z p else z p + u * dt

/-- Modelled from the spec (§4.6): one full update cycle — rebuild the flow
network, then erosion, then diffusion, then uplift. -/
def stepOnce (g : Grid) (kSp : ℚ) (m : ℕ) (kDiff uRate dt : ℚ) (z : Fld g) : Fld g :=
  let recv := routeFlow g z
  upliftApply g uRate dt
    (diffusionApply g kDiff dt
      (erosionApply g recv (spowerG g recv kSp m) dt z))

/-- Modelled from the spec (§4.6): the time-step sizes of a run — steps of
`dt` with the final step shortened to land exactly on the total duration. -/
def stepSizes (total dt : ℚ) : List ℚ :=
  let n := ⌈total / dt⌉.toNat
  List.replicate (n - 1) dt ++ [total - (n - 1 : ℕ) * dt]

/-- Run the model over a given list of step sizes. -/
def partialRun (g : Grid) (kSp : ℚ) (m : ℕ) (kDiff uRate : ℚ) (ds : List ℚ)
    (z0 : Fld g) : Fld g :=
  ds.foldl (fun z d => stepOnce g kSp m kDiff uRate d z) z0

/-- Modelled from the spec (§4.6): the time stepper's states. -/
inductive RunState where
  | Initialized
  | Running
  | Completed
deriving DecidableEq, Repr

/-- The outcome of a run: the final elevation field, the number of steps
taken, and the final state of the time stepper. -/
structure RunResult (g : Grid) where
  elevation : Fld g
  stepsTaken : ℕ
  state : RunState

/-- Modelled from the spec (§4.6): run the model to the total duration;
the stepper moves to `Completed` once the accumulated time reaches the
total duration. -/
def runModel (g : Grid) (kSp : ℚ) (m : ℕ) (kDiff uRate dt total : ℚ)
    (z0 : Fld g) : RunResult g :=
  { elevation := partialRun g kSp m kDiff uRate (stepSizes total dt) z0
    stepsTaken := (stepSizes total dt).length
    state := if total ≤ (stepSizes total dt).sum then RunState.Completed
             else RunState.Running }

/-- The final elevation field laid out as a 2D row-major array
(list of rows), as returned to the serialization layer. -/
def toArray2D (g : Grid) (z : Fld g) : List (List ℚ) :=
  (List.finRange g.ySize).map fun i => (List.finRange g.xSize).map fun j => z (i, j)

/-- Modelled from the spec (§7): the error taxonomy relevant to setup. -/
inductive ConfigurationError where
  | invalidGrid
deriving DecidableEq, Repr

/-- Modelled from the spec (§4.1): grid construction fails with a
`ConfigurationError` if any dimension is `< 3` or any spacing is `≤ 0`. -/
def constructGrid (x y : ℕ) (dx dy : ℚ) : Except ConfigurationError Grid :=
  if 3 ≤ x ∧ 3 ≤ y ∧ 0 < dx ∧ 0 < dy then Except.ok ⟨x, y, dx, dy⟩
  else Except.error ConfigurationError.invalidGrid

/-- Restrict an unbounded field of seed values to a grid. -/
def restrictField (g : Grid) (z0 : ℕ → ℕ → ℚ) : Fld g :=
  fun p => z0 p.1.val p.2.val

/-- Modelled from the spec (§4.1, §7): full checked pipeline — validation at
setup, then the (total, never-failing) run. -/
def runChecked (x y : ℕ) (dx dy kSp : ℚ) (m : ℕ) (kDiff uRate dt total : ℚ)
    (z0 : ℕ → ℕ → ℚ) : Except ConfigurationError (Σ g : Grid, RunResult g) :=
  (constructGrid x y dx dy).map fun g =>
    ⟨g, runModel g kSp m kDiff uRate dt total (restrictField g z0)⟩

/-- Embedded from `src/fastscape.py` (`create_setup` `input_vars`, grid
block): the grid configuration passed to the engine. -/
structure GridConfig where
  x_size : ℕ
  y_size : ℕ
  x_spacing : ℚ
  y_spacing : ℚ
deriving DecidableEq, Repr

/-- Modelled from the spec (§6): the stream-power process configuration of
the core interface; the exponents default to `0.4` and `1`. -/
structure SPowerConfig where
  k_coef : ℚ
  m_exp : ℚ := 0.4
  n_exp : ℚ := 1
deriving DecidableEq, Repr

/-- Embedded from `src/fastscape.py` (`create_setup` call): the full input
configuration the wrapper hands to the engine. -/
structure FastscapeSetup where
  grid : GridConfig
  pit_method : String
  u_coef : ℚ
  spower : SPowerConfig
  diffusion_k : ℚ
  clock_end : ℚ
  clock_step : ℚ
deriving DecidableEq, Repr

/-- Embedded from `src/fastscape.py` (`run_fastscape`, lines 60–75): the
configuration built by the wrapper, with the source's default argument
values and its hard-wired `m_exp = 0.4`, `n_exp = 1`,
`pit_method = mst_linear`. -/
def runFastscapeSetup (k_sp k_diff u_rate : ℚ) (x_size : ℕ := 601)
    (y_size : ℕ := 401) (spacing : ℚ := 200) (time_step : ℚ := 100000)
    (time_total : ℚ := 10000000) : FastscapeSetup :=
  { grid := { x_size := x_size, y_size := y_size,
              x_spacing := spacing, y_spacing := spacing }
    pit_method := "mst_linear"
    u_coef := u_rate
    spower := { k_coef := k_sp, m_exp := 0.4, n_exp := 1 }
    diffusion_k := k_diff
    clock_end := time_total
    clock_step := time_step }

/-- Embedded from `src/fastscape.py` (`run_fastscape`): the wrapper run.
The unseeded `np.random.rand` initial topography is modelled as the explicit
input `init` (one admissible draw per call); the engine itself is the
spec-modelled `runModel`. -/
def runFastscapeModel (kSp : ℚ) (m : ℕ) (kDiff uRate : ℚ) (x_size y_size : ℕ)
    (spacing time_step time_total : ℚ)
    (init : Fld ⟨x_size, y_size, spacing, spacing⟩) :
    RunResult ⟨x_size, y_size, spacing, spacing⟩ :=
  runModel ⟨x_size, y_size, spacing, spacing⟩ kSp m kDiff uRate time_step
    time_total init

/-- The set of cells whose receiver path passes through `c` within `k` hops
(the cells draining to `c`). -/
def SSet (g : Grid) (recv : Idx g → Idx g) (k : ℕ) (c : Idx g) : Finset (Idx g) :=
  Finset.univ.filter fun d => reachB g recv k d c = true

/-- The boundary (fixed-edge) cells of the grid — the outlets of the flow
network. -/
def boundaryCells (g : Grid) : Finset (Idx g) :=
  Finset.univ.filter fun r => isBoundary g r = true

/-- The outlet a cell ultimately drains to: follow receivers to the first
self-receiving cell. -/
def rootOf (g : Grid) (recv : Idx g → Idx g) (d : Idx g) : Idx g :=
  chase g recv (cellCount g) d

/-- Boundary cells are their own receivers. -/
def BFix (g : Grid) (recv : Idx g → Idx g) : Prop :=
  ∀ p, isBoundary g p = true → recv p = p

/-- Receivers of cells that do not yet drain strictly descend (or are the
cell itself): the invariant the steepest-descent construction establishes
and basin merging preserves. -/
def Desc (g : Grid) (z : Fld g) (recv : Idx g → Idx g) : Prop :=
  ∀ p, ¬ Drains g recv p → recv p = p ∨ z (recv p) < z p

/-- The routing invariant carried through pit resolution. -/
def Good (g : Grid) (z : Fld g) (recv : Idx g → Idx g) : Prop :=
  BFix g recv ∧ Desc g z recv

/-- The 3×3 unit-spacing grid used for concrete witnesses. -/
def grid3 : Grid := ⟨3, 3, 1, 1⟩

/-- A concrete elevation field on `grid3` sloping down towards the
north-west corner. -/
def z3 : Fld grid3 := fun p => (p.1.val : ℚ) + (p.2.val : ℚ)

/-- A concrete cell of the 3×3 witness grid. -/
def cell3 (i j : ℕ) : Idx grid3 :=
  (⟨i % 3, Nat.mod_lt _ (by decide)⟩, ⟨j % 3, Nat.mod_lt _ (by decide)⟩)

/-- The 5×5 unit-spacing grid of the diffusion scenario. -/
def grid5 : Grid := ⟨5, 5, 1, 1⟩

/-- A concrete cell of the 5×5 scenario grid. -/
def cell5 (i j : ℕ) : Idx grid5 :=
  (⟨i % 5, Nat.mod_lt _ (by decide)⟩, ⟨j % 5, Nat.mod_lt _ (by decide)⟩)

/-- The scenario field: flat except for a single interior peak of height 10
at (2,2). -/
def z5 : Fld grid5 := fun p => if p.1.val = 2 ∧ p.2.val = 2 then 10 else 0

/-- The exact elevation field produced by one diffusion step of the 5×5
peak scenario (`k_diff = 0.1`, `dt = 1`), tabulated cell by cell. -/
def z5after : Fld grid5 := fun p =>
  if p.1.val = 2 ∧ p.2.val = 2 then 36000 / 5041
  else if (p.1.val = 1 ∨ p.1.val = 3) ∧ p.2.val = 2 then 3000 / 5041
  else if p.1.val = 2 ∧ (p.2.val = 1 ∨ p.2.val = 3) then 3000 / 5041
  else if (p.1.val = 1 ∨ p.1.val = 3) ∧ (p.2.val = 1 ∨ p.2.val = 3) then 250 / 5041
  else 0

/-- The 601×401 grid of the reference scenario (`spacing = 200`). -/
def gridBig : Grid := ⟨601, 401, 200, 200⟩

/-- A concrete cell of the 601×401 scenario grid. -/
def cellBig (i j : ℕ) : Idx gridBig :=
  (⟨i % 401, Nat.mod_lt _ (by decide)⟩, ⟨j % 601, Nat.mod_lt _ (by decide)⟩)

/-! ## Basic facts about cells, neighbours and drainage paths -/

theorem mem_allCells (g : Grid) (p : Idx g) : p ∈ allCells g := by
  obtain ⟨i, j⟩ := p
  exact List.mem_flatMap.mpr
    ⟨i, List.mem_finRange i, List.mem_map_of_mem _ (List.mem_finRange j)⟩

theorem isBoundary_iff (g : Grid) (p : Idx g) :
    isBoundary g p = true ↔
      p.1.val = 0 ∨ p.1.val = g.ySize - 1 ∨ p.2.val = 0 ∨ p.2.val = g.xSize - 1 := by
  simp [isBoundary, or_assoc]

theorem right_mem_nbrs (g : Grid) (p : Idx g) (h : p.2.val + 1 < g.xSize) :
    ((p.1, ⟨p.2.val + 1, h⟩) : Idx g) ∈ nbrs g p := by
  simp [nbrs, h]

theorem drains_of_boundary {g : Grid} {recv : Idx g → Idx g} {p : Idx g}
    (hb : isBoundary g p = true) : Drains g recv p :=
  ⟨0, by simpa using hb⟩

theorem drains_of_recv {g : Grid} {recv : Idx g → Idx g} {p : Idx g}
    (h : Drains g recv (recv p)) : Drains g recv p := by
  obtain ⟨j, hj⟩ := h
  exact ⟨j + 1, by rwa [Function.iterate_succ_apply]⟩

theorem drains_of_iterate {g : Grid} {recv : Idx g → Idx g} (j : ℕ) (p : Idx g)
    (h : Drains g recv (recv^[j] p)) : Drains g recv p := by
  induction j generalizing p with
  | zero => simpa using h
  | succ k ih =>
    rw [Function.iterate_succ_apply] at h
    exact drains_of_recv (ih (recv p) h)

theorem drainsF_iff (g : Grid) (recv : Idx g → Idx g) (k : ℕ) (p : Idx g) :
    drainsF g recv k p = true ↔ ∃ j, j ≤ k ∧ isBoundary g (recv^[j] p) = true := by
  induction k generalizing p with
  | zero =>
    constructor
    · intro h
      exact ⟨0, le_refl 0, by simpa [drainsF] using h⟩
    · rintro ⟨j, hj, hb⟩
      have hj0 : j = 0 := Nat.le_zero.mp hj
      subst hj0
      simpa [drainsF] using hb
  | succ k ih =>
    simp only [drainsF, Bool.or_eq_true]
    constructor
    · rintro (hb | hr)
      · exact ⟨0, Nat.zero_le _, by simpa using hb⟩
      · obtain ⟨j, hj, hb⟩ := (ih (recv p)).mp hr
        exact ⟨j + 1, by omega, by rwa [Function.iterate_succ_apply]⟩
    · rintro ⟨j, hj, hb⟩
      cases j with
      | zero => exact Or.inl (by simpa using hb)
      | succ j' =>
        refine Or.inr ((ih (recv p)).mpr ⟨j', by omega, ?_⟩)
        rwa [Function.iterate_succ_apply] at hb

theorem reach_bound (g : Grid) (recv : Idx g → Idx g) (p : Idx g) {j : ℕ}
    (hb : isBoundary g (recv^[j] p) = true) :
    ∃ j', j' ≤ cellCount g - 1 ∧ isBoundary g (recv^[j'] p) = true := by
  classical
  have hex : ∃ i, isBoundary g (recv^[i] p) = true := ⟨j, hb⟩
  have hP : isBoundary g (recv^[Nat.find hex] p) = true := Nat.find_spec hex
  have key : ∀ a b : ℕ, a < b → b ≤ Nat.find hex → recv^[a] p = recv^[b] p → False := by
    intro a b hab hbj heq2
    have h1 : recv^[Nat.find hex - b + a] p = recv^[Nat.find hex] p := by
      calc recv^[Nat.find hex - b + a] p
          = recv^[Nat.find hex - b] (recv^[a] p) := Function.iterate_add_apply _ _ _ _
        _ = recv^[Nat.find hex - b] (recv^[b] p) := by rw [heq2]
        _ = recv^[Nat.find hex - b + b] p := (Function.iterate_add_apply _ _ _ _).symm
        _ = recv^[Nat.find hex] p := by congr 1; omega
    have hlt : Nat.find hex - b + a < Nat.find hex := by omega
    exact Nat.find_min hex hlt (h1 ▸ hP)
  have hinj : Function.Injective (fun i : Fin (Nat.find hex + 1) => recv^[i.val] p) := by
    intro i1 i2 heq
    by_contra hne
    rcases Nat.lt_trichotomy i1.val i2.val with hlt | heqv | hgt
    · exact key i1.val i2.val hlt (by omega) heq
    · exact hne (Fin.ext heqv)
    · exact key i2.val i1.val hgt (by omega) heq.symm
  have hcard : Nat.find hex + 1 ≤ cellCount g := by
    have h := Fintype.card_le_of_injective _ hinj
    simpa [cellCount, Fintype.card_prod] using h
  exact ⟨Nat.find hex, by omega, hP⟩

theorem drainsF_cellCount_iff (g : Grid) (recv : Idx g → Idx g) (p : Idx g) :
    drainsF g recv (cellCount g) p = true ↔ Drains g recv p := by
  constructor
  · intro h
    obtain ⟨j, _, hb⟩ := (drainsF_iff g recv (cellCount g) p).mp h
    exact ⟨j, hb⟩
  · rintro ⟨j, hb⟩
    obtain ⟨j', hj', hb'⟩ := reach_bound g recv p hb
    exact (drainsF_iff g recv (cellCount g) p).mpr ⟨j', by omega, hb'⟩

theorem not_drainsF_cellCount_iff (g : Grid) (recv : Idx g → Idx g) (p : Idx g) :
    drainsF g recv (cellCount g) p = false ↔ ¬ Drains g recv p := by
  rw [← drainsF_cellCount_iff g recv p]
  cases h : drainsF g recv (cellCount g) p <;> simp

theorem no_cycle (g : Grid) (recv : Idx g → Idx g) (hB : BFix g recv) {p : Idx g}
    (hD : Drains g recv p) {j : ℕ} (hj : 0 < j) (hcyc : recv^[j] p = p) :
    recv p = p := by
  obtain ⟨m, hm⟩ := hD
  have hfix : recv (recv^[m] p) = recv^[m] p := hB _ hm
  have hstab : ∀ s, recv^[m + s] p = recv^[m] p := by
    intro s
    rw [Nat.add_comm, Function.iterate_add_apply]
    exact Function.iterate_fixed hfix s
  have hmult : ∀ t, recv^[t * j] p = p := by
    intro t
    induction t with
    | zero => simp
    | succ t ih => rw [Nat.succ_mul, Function.iterate_add_apply, hcyc, ih]
  obtain ⟨T, hTm, hTp⟩ : ∃ T, m ≤ T ∧ recv^[T] p = p := by
    refine ⟨(m + 1) * j, ?_, hmult (m + 1)⟩
    calc m ≤ m + 1 := by omega
      _ = (m + 1) * 1 := by ring
      _ ≤ (m + 1) * j := Nat.mul_le_mul_left _ hj
  have hpm : p = recv^[m] p := by
    calc p = recv^[T] p := hTp.symm
      _ = recv^[m + (T - m)] p := by congr 1; omega
      _ = recv^[m] p := hstab _
  exact hB _ (hpm ▸ hm)

/-! ## The steepest-descent receiver construction -/

theorem bestNbr_lower (g : Grid) (z : Fld g) (p : Idx g) :
    ∀ (l : List (Idx g)) (q : Idx g), bestNbr g z p l = some q → z q < z p := by
  intro l
  induction l with
  | nil => intro q h; simp [bestNbr] at h
  | cons a tl ih =>
    intro q h
    cases hb : bestNbr g z p tl with
    | none =>
      simp only [bestNbr, hb] at h
      by_cases hc : z a < z p
      · rw [if_pos hc] at h
        injection h with h'
        exact h' ▸ hc
      · rw [if_neg hc] at h
        exact absurd h (by simp)
    | some r =>
      simp only [bestNbr, hb] at h
      by_cases hc : z a < z p ∧ slope g z p r < slope g z p a
      · rw [if_pos hc] at h
        injection h with h'
        exact h' ▸ hc.1
      · rw [if_neg hc] at h
        injection h with h'
        exact h' ▸ ih r hb

theorem recvInit_boundary (g : Grid) (z : Fld g) (p : Idx g)
    (hb : isBoundary g p = true) : recvInit g z p = p := by
  simp [recvInit, hb]

theorem recvInit_self_or_lower (g : Grid) (z : Fld g) (p : Idx g) :
    recvInit g z p = p ∨ z (recvInit g z p) < z p := by
  by_cases hb : isBoundary g p = true
  · exact Or.inl (recvInit_boundary g z p hb)
  · cases hn : bestNbr g z p (nbrs g p) with
    | none => exact Or.inl (by simp [recvInit, hb, hn])
    | some q =>
      refine Or.inr ?_
      have he : recvInit g z p = q := by simp [recvInit, hb, hn]
      rw [he]
      exact bestNbr_lower g z p (nbrs g p) q hn

theorem recvInit_good (g : Grid) (z : Fld g) : Good g z (recvInit g z) :=
  ⟨fun p hb => recvInit_boundary g z p hb,
   fun p _ => recvInit_self_or_lower g z p⟩

/-! ## Chasing a receiver chain down to its pit -/

theorem chase_hits (g : Grid) (recv : Idx g → Idx g) :
    ∀ (k j : ℕ) (p q : Idx g), recv^[j] p = q → recv q = q → j ≤ k →
      chase g recv k p = q := by
  intro k
  induction k with
  | zero =>
    intro j p q hq hfix hj
    have hj0 : j = 0 := Nat.le_zero.mp hj
    subst hj0
    simpa [chase] using hq
  | succ k ih =>
    intro j p q hq hfix hj
    by_cases hf : recv p = p
    · have hconst : recv^[j] p = p := Function.iterate_fixed hf j
      have hpq : p = q := by rw [← hq, hconst]
      subst hpq
      simp [chase, hf]
    · have hj1 : j ≠ 0 := by
        rintro rfl
        simp only [Function.iterate_zero_apply] at hq
        subst hq
        exact hf hfix
      have hstep : recv^[j - 1] (recv p) = q := by
        have h2 : recv^[j - 1 + 1] p = recv^[j - 1] (recv p) :=
          Function.iterate_succ_apply _ _ _
        rw [← h2, show j - 1 + 1 = j by omega]
        exact hq
      simp only [chase, if_neg hf]
      exact ih (j - 1) (recv p) q hstep hfix (by omega)

theorem pit_exists (g : Grid) (z : Fld g) (recv : Idx g → Idx g)
    (hDe : Desc g z recv) {a : Idx g} (ha : ¬ Drains g recv a) :
    ∃ j, j ≤ cellCount g - 1 ∧ recv (recv^[j] a) = recv^[j] a := by
  by_contra hno
  push_neg at hno
  have hund : ∀ j, ¬ Drains g recv (recv^[j] a) :=
    fun j hd => ha (drains_of_iterate j a hd)
  have hdesc : ∀ j, j ≤ cellCount g - 1 → z (recv^[j + 1] a) < z (recv^[j] a) := by
    intro j hj
    rcases hDe (recv^[j] a) (hund j) with hfix | hlow
    · exact absurd hfix (hno j hj)
    · rwa [Function.iterate_succ_apply']
  have hmono : ∀ (d i : ℕ), i + d + 1 ≤ cellCount g → z (recv^[i + d + 1] a) < z (recv^[i] a) := by
    intro d
    induction d with
    | zero => intro i hi; exact hdesc i (by omega)
    | succ d ihd =>
      intro i hi
      calc z (recv^[i + (d + 1) + 1] a) < z (recv^[i + d + 1] a) :=
            hdesc (i + d + 1) (by omega)
        _ < z (recv^[i] a) := ihd i (by omega)
  have key : ∀ b c : ℕ, b < c → c ≤ cellCount g → recv^[b] a ≠ recv^[c] a := by
    intro b c hbc hc heq
    have := hmono (c - b - 1) b (by omega)
    rw [show b + (c - b - 1) + 1 = c by omega] at this
    rw [heq] at this
    exact lt_irrefl _ this
  have hinj : Function.Injective (fun i : Fin (cellCount g + 1) => recv^[i.val] a) := by
    intro i1 i2 heq
    by_contra hne
    rcases Nat.lt_trichotomy i1.val i2.val with hlt | heqv | hgt
    · exact key i1.val i2.val hlt (by omega) heq
    · exact hne (Fin.ext heqv)
    · exact key i2.val i1.val hgt (by omega) heq.symm
  have hcard : cellCount g + 1 ≤ cellCount g := by
    have h := Fintype.card_le_of_injective _ hinj
    simpa [cellCount, Fintype.card_prod] using h
  omega

theorem chase_pit (g : Grid) (z : Fld g) (recv : Idx g → Idx g)
    (hDe : Desc g z recv) {a : Idx g} (ha : ¬ Drains g recv a) :
    recv (rootOf g recv a) = rootOf g recv a ∧ ¬ Drains g recv (rootOf g recv a) := by
  obtain ⟨j, hj, hfix⟩ := pit_exists g z recv hDe ha
  have hc : rootOf g recv a = recv^[j] a :=
    chase_hits g recv (cellCount g) j a (recv^[j] a) rfl hfix (by omega)
  constructor
  · rw [hc]; exact hfix
  · rw [hc]; exact fun hd => ha (drains_of_iterate j a hd)

/-! ## Pass candidates and basin merging -/

theorem chooseMin_mem {α : Type} (f : α → ℚ) :
    ∀ (l : List α) (x : α), chooseMin f l = some x → x ∈ l := by
  intro l
  induction l with
  | nil => intro x h; simp [chooseMin] at h
  | cons a tl ih =>
    intro x h
    cases hc : chooseMin f tl with
    | none =>
      simp only [chooseMin, hc] at h
      injection h with h'
      exact h' ▸ List.mem_cons_self a tl
    | some y =>
      simp only [chooseMin, hc] at h
      by_cases hle : f a ≤ f y
      · rw [if_pos hle] at h
        injection h with h'
        exact h' ▸ List.mem_cons_self a tl
      · rw [if_neg hle] at h
        injection h with h'
        exact h' ▸ List.mem_cons_of_mem a (ih y hc)

theorem chooseMin_of_ne_nil {α : Type} (f : α → ℚ) (l : List α) (hl : l ≠ []) :
    ∃ x, chooseMin f l = some x := by
  cases l with
  | nil => exact absurd rfl hl
  | cons a tl =>
    cases hc : chooseMin f tl with
    | none => exact ⟨a, by simp [chooseMin, hc]⟩
    | some y =>
      by_cases hle : f a ≤ f y
      · exact ⟨a, by simp [chooseMin, hc, hle]⟩
      · exact ⟨y, by simp [chooseMin, hc, hle]⟩

theorem mem_candidatePairs (g : Grid) (recv : Idx g → Idx g) (a b : Idx g) :
    (a, b) ∈ candidatePairs g recv ↔
      drainsF g recv (cellCount g) a = false ∧ b ∈ nbrs g a ∧
        drainsF g recv (cellCount g) b = true := by
  unfold candidatePairs
  rw [List.mem_flatMap]
  constructor
  · rintro ⟨a', _, hmem⟩
    by_cases hd : drainsF g recv (cellCount g) a' = true
    · rw [if_pos hd] at hmem
      simp at hmem
    · rw [if_neg hd] at hmem
      rw [List.mem_map] at hmem
      obtain ⟨b', hb', heq⟩ := hmem
      obtain ⟨rfl, rfl⟩ : a' = a ∧ b' = b := Prod.mk.injEq .. ▸ heq
      rw [List.mem_filter] at hb'
      exact ⟨Bool.not_eq_true _ ▸ hd, hb'.1, hb'.2⟩
  · rintro ⟨hda, hmem, hdb⟩
    refine ⟨a, mem_allCells g a, ?_⟩
    rw [if_neg (by simp [hda])]
    rw [List.mem_map]
    exact ⟨b, List.mem_filter.mpr ⟨hmem, hdb⟩, rfl⟩

theorem exists_frontier (g : Grid) (recv : Idx g → Idx g) {p : Idx g}
    (hp : ¬ Drains g recv p) :
    ∃ a b, ¬ Drains g recv a ∧ Drains g recv b ∧ b ∈ nbrs g a := by
  suffices h : ∀ (k : ℕ) (p : Idx g), g.xSize - 1 - p.2.val = k →
      ¬ Drains g recv p →
      ∃ a b, ¬ Drains g recv a ∧ Drains g recv b ∧ b ∈ nbrs g a from
    h _ p rfl hp
  intro k
  induction k with
  | zero =>
    intro p hk hp
    exfalso
    apply hp
    apply drains_of_boundary
    rw [isBoundary_iff]
    have := p.2.isLt
    exact Or.inr (Or.inr (Or.inr (by omega)))
  | succ k ih =>
    intro p hk hp
    have hlt : p.2.val + 1 < g.xSize := by
      have := p.2.isLt
      omega
    by_cases hd : Drains g recv ((p.1, ⟨p.2.val + 1, hlt⟩) : Idx g)
    · exact ⟨p, (p.1, ⟨p.2.val + 1, hlt⟩), hp, hd, right_mem_nbrs g p hlt⟩
    · exact ih (p.1, ⟨p.2.val + 1, hlt⟩) (by simp; omega) hd

theorem undrained_mem_iff (g : Grid) (recv : Idx g → Idx g) (p : Idx g) :
    p ∈ undrainedSet g recv ↔ ¬ Drains g recv p := by
  rw [undrainedSet, Finset.mem_filter]
  rw [not_drainsF_cellCount_iff]
  simp

theorem resolveStep_analysis (g : Grid) (z : Fld g) (recv : Idx g → Idx g)
    (hG : Good g z recv) :
    Good g z (resolveStep g z recv) ∧
      (undrainedSet g recv = ∅ → resolveStep g z recv = recv) ∧
      (undrainedSet g recv ≠ ∅ →
        (undrainedSet g (resolveStep g z recv)).card < (undrainedSet g recv).card) := by
  cases hcm : chooseMin (fun ab => max (z ab.1) (z ab.2)) (candidatePairs g recv) with
  | none =>
    have hres : resolveStep g z recv = recv := by
      unfold resolveStep
      rw [hcm]
    rw [hres]
    refine ⟨hG, fun _ => rfl, fun hne => ?_⟩
    exfalso
    obtain ⟨p, hpmem⟩ := Finset.nonempty_iff_ne_empty.mpr hne
    have hp : ¬ Drains g recv p := (undrained_mem_iff g recv p).mp hpmem
    obtain ⟨a, b, hna, hdb, hmem⟩ := exists_frontier g recv hp
    have hab : (a, b) ∈ candidatePairs g recv :=
      (mem_candidatePairs g recv a b).mpr
        ⟨(not_drainsF_cellCount_iff g recv a).mpr hna, hmem,
          (drainsF_cellCount_iff g recv b).mpr hdb⟩
    obtain ⟨x, hx⟩ :=
      chooseMin_of_ne_nil (fun ab => max (z ab.1) (z ab.2)) _
        (List.ne_nil_of_mem hab)
    rw [hx] at hcm
    exact absurd hcm (by simp)
  | some ab =>
    obtain ⟨a, b⟩ := ab
    have habm : (a, b) ∈ candidatePairs g recv := chooseMin_mem _ _ _ hcm
    obtain ⟨hdaF, hnb, hdbF⟩ := (mem_candidatePairs g recv a b).mp habm
    have hna : ¬ Drains g recv a := (not_drainsF_cellCount_iff g recv a).mp hdaF
    have hdb : Drains g recv b := (drainsF_cellCount_iff g recv b).mp hdbF
    obtain ⟨hpitfix, hpitnd⟩ := chase_pit g z recv hG.2 hna
    have hres : resolveStep g z recv = Function.update recv (rootOf g recv a) b := by
      unfold resolveStep rootOf
      rw [hcm]
    rw [hres]
    set pit := rootOf g recv a with hpitdef
    set recv' := Function.update recv pit b with hrecv'
    have hupd_ne : ∀ q : Idx g, q ≠ pit → recv' q = recv q := by
      intro q hq
      rw [hrecv']
      exact Function.update_noteq hq b recv
    have hupd_pit : recv' pit = b := by
      rw [hrecv']
      exact Function.update_same pit b recv
    have step_agree : ∀ (p : Idx g) (m : ℕ), isBoundary g (recv^[m] p) = true →
        ∀ t, t ≤ m → recv'^[t] p = recv^[t] p := by
      intro p m hbm t
      induction t with
      | zero => intro _; rfl
      | succ t iht =>
        intro hle
        have h1 : recv'^[t] p = recv^[t] p := iht (by omega)
        rw [Function.iterate_succ_apply', Function.iterate_succ_apply', h1]
        have hne : recv^[t] p ≠ pit := by
          intro he
          apply hpitnd
          refine ⟨m - t, ?_⟩
          rw [← he, ← Function.iterate_add_apply,
            show m - t + t = m by omega]
          exact hbm
        exact hupd_ne _ hne
    have hmono : ∀ p : Idx g, Drains g recv p → Drains g recv' p := by
      rintro p ⟨m, hm⟩
      exact ⟨m, by rw [step_agree p m hm m le_rfl]; exact hm⟩
    have hpit' : Drains g recv' pit := by
      obtain ⟨m, hm⟩ := hmono b hdb
      refine ⟨m + 1, ?_⟩
      rw [Function.iterate_succ_apply, hupd_pit]
      exact hm
    refine ⟨⟨?_, ?_⟩, ?_, ?_⟩
    · -- boundary cells still self-receive
      intro q hbq
      have hq : q ≠ pit := by
        intro he
        exact hpitnd (he ▸ drains_of_boundary hbq)
      rw [hupd_ne q hq]
      exact hG.1 q hbq
    · -- descenders on undrained cells
      intro q hnd'
      have hqpit : q ≠ pit := fun he => hnd' (he ▸ hpit')
      have hnd : ¬ Drains g recv q := fun hd => hnd' (hmono q hd)
      rw [hupd_ne q hqpit]
      exact hG.2 q hnd
    · -- no-op is impossible here, but the implication holds vacuously or not;
      -- when the undrained set is empty there is no candidate pair
      intro hemp
      exfalso
      have : a ∈ undrainedSet g recv := (undrained_mem_iff g recv a).mpr hna
      rw [hemp] at this
      exact absurd this (Finset.not_mem_empty a)
    · -- the undrained set strictly shrinks
      intro _
      apply Finset.card_lt_card
      rw [Finset.ssubset_iff_of_subset]
      · exact ⟨pit, (undrained_mem_iff g recv pit).mpr hpitnd,
          fun hmem => ((undrained_mem_iff g recv' pit).mp hmem) hpit'⟩
      · intro q hq
        have hnd' : ¬ Drains g recv' q := (undrained_mem_iff g recv' q).mp hq
        exact (undrained_mem_iff g recv q).mpr fun hd => hnd' (hmono q hd)

theorem resolve_iterate (g : Grid) (z : Fld g) :
    ∀ k : ℕ, Good g z ((resolveStep g z)^[k] (recvInit g z)) ∧
      ((undrainedSet g ((resolveStep g z)^[k] (recvInit g z))).card + k ≤ cellCount g ∨
        undrainedSet g ((resolveStep g z)^[k] (recvInit g z)) = ∅) := by
  intro k
  induction k with
  | zero =>
    simp only [Function.iterate_zero_apply]
    refine ⟨recvInit_good g z, Or.inl ?_⟩
    have h1 : (undrainedSet g (recvInit g z)).card ≤ Finset.univ.card :=
      Finset.card_le_univ _
    have h2 : (Finset.univ : Finset (Idx g)).card = cellCount g := by
      simp [cellCount, Fintype.card_prod]
    omega
  | succ k ih =>
    obtain ⟨hGk, hck⟩ := ih
    obtain ⟨hG', hnoop, hprog⟩ := resolveStep_analysis g z _ hGk
    rw [Function.iterate_succ_apply']
    by_cases he : undrainedSet g ((resolveStep g z)^[k] (recvInit g z)) = ∅
    · rw [hnoop he]
      exact ⟨hGk, Or.inr he⟩
    · refine ⟨hG', ?_⟩
      have hlt := hprog he
      rcases hck with hle | hemp
      · exact Or.inl (by omega)
      · exact absurd hemp he

theorem routeFlow_good (g : Grid) (z : Fld g) : Good g z (routeFlow g z) :=
  (resolve_iterate g z (cellCount g)).1

theorem routeFlow_drains (g : Grid) (z : Fld g) (p : Idx g) :
    Drains g (routeFlow g z) p := by
  unfold routeFlow
  obtain ⟨_, hc⟩ := resolve_iterate g z (cellCount g)
  have hempty : undrainedSet g ((resolveStep g z)^[cellCount g] (recvInit g z)) = ∅ := by
    rcases hc with hle | hemp
    · exact Finset.card_eq_zero.mp (by omega)
    · exact hemp
  by_contra hnd
  have hmem :=
    (undrained_mem_iff g ((resolveStep g z)^[cellCount g] (recvInit g z)) p).mpr hnd
  rw [hempty] at hmem
  exact absurd hmem (Finset.not_mem_empty p)

theorem routeFlow_bfix (g : Grid) (z : Fld g) : BFix g (routeFlow g z) :=
  (routeFlow_good g z).1

/-! ## Drainage-area accumulation over the resolved flow forest -/

theorem reachB_iff (g : Grid) (recv : Idx g → Idx g) (k : ℕ) (d c : Idx g) :
    reachB g recv k d c = true ↔ ∃ j, j ≤ k ∧ recv^[j] d = c := by
  induction k generalizing d with
  | zero =>
    constructor
    · intro h
      exact ⟨0, le_refl 0, by simpa [reachB] using h⟩
    · rintro ⟨j, hj, hb⟩
      have hj0 : j = 0 := Nat.le_zero.mp hj
      subst hj0
      simpa [reachB] using hb
  | succ k ih =>
    simp only [reachB, Bool.or_eq_true, decide_eq_true_eq]
    constructor
    · rintro (hb | hr)
      · exact ⟨0, Nat.zero_le _, hb⟩
      · obtain ⟨j, hj, hb⟩ := (ih (recv d)).mp hr
        exact ⟨j + 1, by omega, by rwa [Function.iterate_succ_apply]⟩
    · rintro ⟨j, hj, hb⟩
      cases j with
      | zero => exact Or.inl hb
      | succ j' =>
        refine Or.inr ((ih (recv d)).mpr ⟨j', by omega, ?_⟩)
        rwa [Function.iterate_succ_apply] at hb

theorem mem_SSet_iff (g : Grid) (recv : Idx g → Idx g) (k : ℕ) (d c : Idx g) :
    d ∈ SSet g recv k c ↔ ∃ j, j ≤ k ∧ recv^[j] d = c := by
  rw [SSet, Finset.mem_filter, reachB_iff]
  simp

theorem sset_card_succ (g : Grid) (recv : Idx g → Idx g) (hB : BFix g recv)
    (hD : ∀ p, Drains g recv p) (k : ℕ) (c : Idx g) :
    (SSet g recv (k + 1) c).card =
      1 + (donorsOf g recv c).sum (fun e => (SSet g recv k e).card) := by
  classical
  have hset : SSet g recv (k + 1) c =
      insert c ((donorsOf g recv c).biUnion (fun e => SSet g recv k e)) := by
    ext d
    rw [mem_SSet_iff, Finset.mem_insert, Finset.mem_biUnion]
    constructor
    · rintro ⟨j, hj, hiter⟩
      by_cases hdc : d = c
      · exact Or.inl hdc
      · refine Or.inr ?_
        have hex : ∃ i, recv^[i] d = c := ⟨j, hiter⟩
        have hspec : recv^[Nat.find hex] d = c := Nat.find_spec hex
        have hfle : Nat.find hex ≤ j := Nat.find_min' hex hiter
        have hne0 : Nat.find hex ≠ 0 := by
          intro h0
          exact hdc (by simpa [h0] using hspec)
        refine ⟨recv^[Nat.find hex - 1] d, ?_, ?_⟩
        · rw [donorsOf, Finset.mem_filter]
          refine ⟨Finset.mem_univ _, ?_, ?_⟩
          · have h1 : recv^[Nat.find hex - 1 + 1] d =
                recv (recv^[Nat.find hex - 1] d) :=
              Function.iterate_succ_apply' recv _ d
            rw [← h1, show Nat.find hex - 1 + 1 = Nat.find hex by omega]
            exact hspec
          · intro heq
            exact Nat.find_min hex (show Nat.find hex - 1 < Nat.find hex by omega) heq
        · exact (mem_SSet_iff g recv k d _).mpr ⟨Nat.find hex - 1, by omega, rfl⟩
    · rintro (rfl | ⟨e, hemem, hdmem⟩)
      · exact ⟨0, by omega, rfl⟩
      · rw [donorsOf, Finset.mem_filter] at hemem
        obtain ⟨j, hj, hiter⟩ := (mem_SSet_iff g recv k d e).mp hdmem
        refine ⟨j + 1, by omega, ?_⟩
        rw [Function.iterate_succ_apply', hiter]
        exact hemem.2.1
  have hnotmem : c ∉ (donorsOf g recv c).biUnion (fun e => SSet g recv k e) := by
    rw [Finset.mem_biUnion]
    rintro ⟨e, hemem, hcmem⟩
    rw [donorsOf, Finset.mem_filter] at hemem
    obtain ⟨j, _, hiter⟩ := (mem_SSet_iff g recv k c e).mp hcmem
    have hcyc : recv^[j + 1] c = c := by
      rw [Function.iterate_succ_apply', hiter]
      exact hemem.2.1
    have hfix : recv c = c := no_cycle g recv hB (hD c) (by omega) hcyc
    exact hemem.2.2 (by rw [← hiter, Function.iterate_fixed hfix])
  have hdisj : ∀ e1 ∈ donorsOf g recv c, ∀ e2 ∈ donorsOf g recv c, e1 ≠ e2 →
      Disjoint (SSet g recv k e1) (SSet g recv k e2) := by
    have key : ∀ e1 ∈ donorsOf g recv c, ∀ e2 ∈ donorsOf g recv c,
        ∀ (d : Idx g) (j1 j2 : ℕ), j1 < j2 → recv^[j1] d = e1 → recv^[j2] d = e2 →
          False := by
      intro e1 he1 e2 he2 d j1 j2 hlt hi1 hi2
      rw [donorsOf, Finset.mem_filter] at he1 he2
      have hsteps : recv^[j2 - j1] e1 = e2 := by
        rw [← hi1, ← Function.iterate_add_apply, show j2 - j1 + j1 = j2 by omega]
        exact hi2
      have he2c : recv^[j2 - j1 - 1] c = e2 := by
        have h1 : recv^[j2 - j1 - 1 + 1] e1 = recv^[j2 - j1 - 1] (recv e1) :=
          Function.iterate_succ_apply recv _ e1
        rw [he1.2.1] at h1
        rw [← h1, show j2 - j1 - 1 + 1 = j2 - j1 by omega]
        exact hsteps
      have hcyc : recv^[j2 - j1] c = c := by
        have h1 : recv^[j2 - j1 - 1 + 1] c = recv (recv^[j2 - j1 - 1] c) :=
          Function.iterate_succ_apply' recv _ c
        rw [he2c] at h1
        rw [show j2 - j1 = j2 - j1 - 1 + 1 by omega, h1]
        exact he2.2.1
      have hfix : recv c = c := no_cycle g recv hB (hD c) (by omega) hcyc
      exact he2.2.2 (by rw [← he2c, Function.iterate_fixed hfix])
    intro e1 he1 e2 he2 hne
    rw [Finset.disjoint_left]
    intro d hd1 hd2
    obtain ⟨j1, _, hi1⟩ := (mem_SSet_iff g recv k d e1).mp hd1
    obtain ⟨j2, _, hi2⟩ := (mem_SSet_iff g recv k d e2).mp hd2
    rcases Nat.lt_trichotomy j1 j2 with hlt | heq | hgt
    · exact key e1 he1 e2 he2 d j1 j2 hlt hi1 hi2
    · exact hne (by rw [← hi1, ← hi2, heq])
    · exact key e2 he2 e1 he1 d j2 j1 hgt hi2 hi1
  rw [hset, Finset.card_insert_of_not_mem hnotmem, Finset.card_biUnion hdisj]
  omega

theorem areaF_card (g : Grid) (recv : Idx g → Idx g) (hB : BFix g recv)
    (hD : ∀ p, Drains g recv p) :
    ∀ (k : ℕ) (c : Idx g),
      areaF g recv k c = cellArea g * ((SSet g recv k c).card : ℚ) := by
  intro k
  induction k with
  | zero =>
    intro c
    have hone : SSet g recv 0 c = {c} := by
      ext d
      simp [SSet, reachB]
    simp [areaF, hone]
  | succ k ih =>
    intro c
    rw [areaF, sset_card_succ g recv hB hD k c]
    rw [Finset.sum_congr rfl (fun e _ => ih e)]
    rw [← Finset.mul_sum]
    push_cast
    ring

theorem rootOf_spec (g : Grid) (recv : Idx g → Idx g) (hB : BFix g recv)
    {d : Idx g} (hD : Drains g recv d) :
    isBoundary g (rootOf g recv d) = true ∧
      ∃ m, m ≤ cellCount g ∧ recv^[m] d = rootOf g recv d := by
  obtain ⟨j0, hj0⟩ := hD
  obtain ⟨m, hm, hbm⟩ := reach_bound g recv d hj0
  have hfix : recv (recv^[m] d) = recv^[m] d := hB _ hbm
  have hchase : rootOf g recv d = recv^[m] d :=
    chase_hits g recv (cellCount g) m d _ rfl hfix (by omega)
  exact ⟨by rw [hchase]; exact hbm, ⟨m, by omega, hchase.symm⟩⟩

theorem reachB_root_iff (g : Grid) (recv : Idx g → Idx g) (hB : BFix g recv)
    (hD : ∀ p, Drains g recv p) (d r : Idx g) (hr : recv r = r) :
    reachB g recv (cellCount g) d r = true ↔ rootOf g recv d = r := by
  constructor
  · intro h
    obtain ⟨j, hj, hiter⟩ := (reachB_iff g recv (cellCount g) d r).mp h
    exact chase_hits g recv (cellCount g) j d r hiter hr hj
  · intro h
    obtain ⟨_, m, hm, hiter⟩ := rootOf_spec g recv hB (hD d)
    exact (reachB_iff g recv (cellCount g) d r).mpr ⟨m, hm, by rw [hiter, h]⟩

/-- C2: for every elevation field, the receiver graph produced by the flow
router (after pit resolution) reaches a boundary cell from any cell in at
most `x_size·y_size` hops, and it is acyclic: the only cycles of the
receiver map are the trivial self-loops at boundary outlet cells. -/
theorem c2_flow_network_acyclic (g : Grid) (z : Fld g) :
    (∀ c : Idx g, ∃ j, j ≤ g.xSize * g.ySize ∧
      isBoundary g ((routeFlow g z)^[j] c) = true) ∧
    (∀ (c : Idx g) (j : ℕ), 0 < j → (routeFlow g z)^[j] c = c →
      isBoundary g c = true ∧ routeFlow g z c = c) := by
  constructor
  · intro c
    obtain ⟨j0, hj0⟩ := routeFlow_drains g z c
    obtain ⟨j, hj, hb⟩ := reach_bound g (routeFlow g z) c hj0
    have hcomm : cellCount g = g.xSize * g.ySize := by
      rw [cellCount, Nat.mul_comm]
    exact ⟨j, by omega, hb⟩
  · intro c j hj hcyc
    have hfix : routeFlow g z c = c :=
      no_cycle g (routeFlow g z) (routeFlow_bfix g z) (routeFlow_drains g z c)
        hj hcyc
    obtain ⟨m, hm⟩ := routeFlow_drains g z c
    rw [Function.iterate_fixed hfix] at hm
    exact ⟨hm, hfix⟩

/-- Witness for C2 at a concrete 3×3 grid: the interior cell (1,1) reaches
the boundary, and the boundary corner (0,0) is a trivial self-loop. -/
theorem c2_flow_network_acyclic_witness :
    (∃ j, j ≤ grid3.xSize * grid3.ySize ∧
      isBoundary grid3 ((routeFlow grid3 z3)^[j] (cell3 1 1)) = true) ∧
    (isBoundary grid3 (cell3 0 0) = true ∧ routeFlow grid3 z3 (cell3 0 0) = cell3 0 0) := by
  refine ⟨(c2_flow_network_acyclic grid3 z3).1 (cell3 1 1), ?_⟩
  have hfix : routeFlow grid3 z3 (cell3 0 0) = cell3 0 0 :=
    routeFlow_bfix grid3 z3 (cell3 0 0) (by decide)
  exact (c2_flow_network_acyclic grid3 z3).2 (cell3 0 0) 1 (by decide)
    (by rw [Function.iterate_one]; exact hfix)

/-- C1: after the flow router rebuilds the network and drainage area is
accumulated, the drainage area collected at any boundary outlet equals the
total cell area of the cells draining to it, and the outlet drainage areas
sum to the total domain area `x_size·y_size·dx·dy`. -/
theorem c1_drainage_conservation (g : Grid) (z : Fld g) :
    (∀ r : Idx g, isBoundary g r = true →
      drainage g (routeFlow g z) r =
        cellArea g * ((SSet g (routeFlow g z) (cellCount g) r).card : ℚ)) ∧
    (boundaryCells g).sum (drainage g (routeFlow g z)) =
      (g.xSize : ℚ) * (g.ySize : ℚ) * g.dx * g.dy := by
  classical
  have hB : BFix g (routeFlow g z) := routeFlow_bfix g z
  have hD : ∀ p, Drains g (routeFlow g z) p := routeFlow_drains g z
  constructor
  · intro r _
    exact areaF_card g (routeFlow g z) hB hD (cellCount g) r
  · have hfiber : ∀ r ∈ boundaryCells g,
        SSet g (routeFlow g z) (cellCount g) r =
          Finset.univ.filter (fun d => rootOf g (routeFlow g z) d = r) := by
      intro r hr
      rw [boundaryCells, Finset.mem_filter] at hr
      ext d
      rw [mem_SSet_iff, Finset.mem_filter]
      rw [← reachB_iff, reachB_root_iff g (routeFlow g z) hB hD d r (hB r hr.2)]
      simp
    have hmaps : ∀ d : Idx g, d ∈ Finset.univ →
        rootOf g (routeFlow g z) d ∈ boundaryCells g := by
      intro d _
      rw [boundaryCells, Finset.mem_filter]
      exact ⟨Finset.mem_univ _, (rootOf_spec g (routeFlow g z) hB (hD d)).1⟩
    have hcardsum : (Finset.univ : Finset (Idx g)).card =
        (boundaryCells g).sum
          (fun r => (Finset.univ.filter
            (fun d => rootOf g (routeFlow g z) d = r)).card) :=
      Finset.card_eq_sum_card_fiberwise hmaps
    calc (boundaryCells g).sum (drainage g (routeFlow g z))
        = (boundaryCells g).sum
            (fun r => cellArea g *
              ((SSet g (routeFlow g z) (cellCount g) r).card : ℚ)) := by
          exact Finset.sum_congr rfl
            (fun r _ => areaF_card g (routeFlow g z) hB hD (cellCount g) r)
      _ = (boundaryCells g).sum
            (fun r => cellArea g *
              ((Finset.univ.filter
                (fun d => rootOf g (routeFlow g z) d = r)).card : ℚ)) := by
          exact Finset.sum_congr rfl (fun r hr => by rw [hfiber r hr])
      _ = cellArea g * (((Finset.univ : Finset (Idx g)).card : ℚ)) := by
          rw [← Finset.mul_sum, hcardsum]
          push_cast
          ring
      _ = (g.xSize : ℚ) * (g.ySize : ℚ) * g.dx * g.dy := by
          rw [Finset.card_univ]
          simp [cellArea, Fintype.card_prod]
          push_cast
          ring

/-- Witness for C1 at a concrete 3×3 grid and elevation field. -/
theorem c1_drainage_conservation_witness :
    drainage grid3 (routeFlow grid3 z3) (cell3 0 0) =
        cellArea grid3 *
          ((SSet grid3 (routeFlow grid3 z3) (cellCount grid3) (cell3 0 0)).card : ℚ) ∧
      (boundaryCells grid3).sum (drainage grid3 (routeFlow grid3 z3)) =
        (grid3.xSize : ℚ) * (grid3.ySize : ℚ) * grid3.dx * grid3.dy :=
  ⟨(c1_drainage_conservation grid3 z3).1 (cell3 0 0) (by decide),
   (c1_drainage_conservation grid3 z3).2⟩

/-! ## The implicit stream-power erosion sweep -/

theorem erode_fixpoint (g : Grid) (recv : Idx g → Idx g) (G : Idx g → ℚ)
    (dt : ℚ) (z : Fld g) {c : Idx g} (hc : recv c = c) :
    ∀ k, erode g recv G dt z k c = z c := by
  intro k
  cases k with
  | zero => rfl
  | succ k => simp [erode, hc]

theorem erode_stable (g : Grid) (recv : Idx g → Idx g) (G : Idx g → ℚ)
    (dt : ℚ) (z : Fld g) :
    ∀ (j k k' : ℕ) (c : Idx g), recv (recv^[j] c) = recv^[j] c → j ≤ k → j ≤ k' →
      erode g recv G dt z k c = erode g recv G dt z k' c := by
  intro j
  induction j with
  | zero =>
    intro k k' c hfix _ _
    simp only [Function.iterate_zero_apply] at hfix
    rw [erode_fixpoint g recv G dt z hfix, erode_fixpoint g recv G dt z hfix]
  | succ j ih =>
    intro k k' c hfix hk hk'
    by_cases hc : recv c = c
    · rw [erode_fixpoint g recv G dt z hc, erode_fixpoint g recv G dt z hc]
    · obtain ⟨k1, rfl⟩ : ∃ k1, k = k1 + 1 := ⟨k - 1, by omega⟩
      obtain ⟨k1', rfl⟩ : ∃ k1', k' = k1' + 1 := ⟨k' - 1, by omega⟩
      have hfix' : recv (recv^[j] (recv c)) = recv^[j] (recv c) := by
        rwa [← Function.iterate_succ_apply]
      simp only [erode, if_neg hc]
      rw [ih k1 k1' (recv c) hfix' (by omega) (by omega)]

theorem cell_exists_pos (g : Grid) (c : Idx g) : 0 < cellCount g := by
  rw [cellCount]
  exact Nat.mul_pos c.1.pos c.2.pos

theorem fix_hit_exists (g : Grid) (recv : Idx g → Idx g) (hB : BFix g recv)
    {c : Idx g} (hD : Drains g recv c) :
    ∃ m, m ≤ cellCount g - 1 ∧ recv (recv^[m] c) = recv^[m] c := by
  obtain ⟨j0, hj0⟩ := hD
  obtain ⟨m, hm, hbm⟩ := reach_bound g recv c hj0
  exact ⟨m, hm, hB _ hbm⟩

theorem interior_recv_ne (g : Grid) (z : Fld g) {c : Idx g}
    (hc : isBoundary g c = false) : routeFlow g z c ≠ c := by
  intro heq
  obtain ⟨m, hm⟩ := routeFlow_drains g z c
  rw [Function.iterate_fixed heq] at hm
  rw [hc] at hm
  exact Bool.false_ne_true hm

/-- C3: on any grid and elevation field, one application of the erosion
solver (with `n = 1`) updates each interior cell implicitly from its
receiver's already-updated elevation: the new elevation equals
`(z_old + K·A^m·dt·z_r_new/d) / (1 + K·A^m·dt/d)`, for every `dt > 0`
(no CFL restriction) and every coefficient `K ≥ 0` and exponent `m`. -/
theorem c3_erosion_implicit_update (g : Grid) (z : Fld g) (kSp : ℚ)
    (hK : 0 ≤ kSp) (m : ℕ) (dt : ℚ) (hdt : 0 < dt) (c : Idx g)
    (hc : isBoundary g c = false) :
    erosionApply g (routeFlow g z) (spowerG g (routeFlow g z) kSp m) dt z c =
      (z c + kSp * drainage g (routeFlow g z) c ^ m * dt /
          cellDist g c (routeFlow g z c) *
          erosionApply g (routeFlow g z) (spowerG g (routeFlow g z) kSp m) dt z
            (routeFlow g z c)) /
        (1 + kSp * drainage g (routeFlow g z) c ^ m * dt /
          cellDist g c (routeFlow g z c)) := by
  have hne : routeFlow g z c ≠ c := interior_recv_ne g z hc
  have hpos : 0 < cellCount g := cell_exists_pos g c
  obtain ⟨k, hk⟩ : ∃ k, cellCount g = k + 1 := ⟨cellCount g - 1, by omega⟩
  obtain ⟨m0, hm0, hm0fix⟩ :=
    fix_hit_exists g (routeFlow g z) (routeFlow_bfix g z)
      (routeFlow_drains g z (routeFlow g z c))
  have hstab : erode g (routeFlow g z) (spowerG g (routeFlow g z) kSp m) dt z k
        (routeFlow g z c) =
      erode g (routeFlow g z) (spowerG g (routeFlow g z) kSp m) dt z (k + 1)
        (routeFlow g z c) :=
    erode_stable g (routeFlow g z) _ dt z m0 k (k + 1) (routeFlow g z c) hm0fix
      (by omega) (by omega)
  show erode g (routeFlow g z) (spowerG g (routeFlow g z) kSp m) dt z
      (cellCount g) c = _
  rw [hk]
  simp only [erode, if_neg hne]
  rw [hstab, ← hk]
  show _ = (z c + spowerG g (routeFlow g z) kSp m c * dt /
      cellDist g c (routeFlow g z c) *
      erode g (routeFlow g z) (spowerG g (routeFlow g z) kSp m) dt z
        (cellCount g) (routeFlow g z c)) /
    (1 + spowerG g (routeFlow g z) kSp m c * dt / cellDist g c (routeFlow g z c))
  rw [hk]

/-- Witness for C3 at a concrete 3×3 grid with `K = 1`, `m = 1`, `dt = 1`,
at the interior cell (1,1). -/
theorem c3_erosion_implicit_update_witness :
    erosionApply grid3 (routeFlow grid3 z3)
        (spowerG grid3 (routeFlow grid3 z3) 1 1) 1 z3 (cell3 1 1) =
      (z3 (cell3 1 1) + 1 * drainage grid3 (routeFlow grid3 z3) (cell3 1 1) ^ 1 * 1 /
          cellDist grid3 (cell3 1 1) (routeFlow grid3 z3 (cell3 1 1)) *
          erosionApply grid3 (routeFlow grid3 z3)
            (spowerG grid3 (routeFlow grid3 z3) 1 1) 1 z3
            (routeFlow grid3 z3 (cell3 1 1))) /
        (1 + 1 * drainage grid3 (routeFlow grid3 z3) (cell3 1 1) ^ 1 * 1 /
          cellDist grid3 (cell3 1 1) (routeFlow grid3 z3 (cell3 1 1))) :=
  c3_erosion_implicit_update grid3 z3 1 (by norm_num) 1 1 (by norm_num)
    (cell3 1 1) (by decide)

/-! ## Boundary cells are never modified (frame lemmas) -/

theorem erosionApply_boundary (g : Grid) (recv : Idx g → Idx g)
    (hB : BFix g recv) (G : Idx g → ℚ) (dt : ℚ) (z : Fld g) {c : Idx g}
    (hb : isBoundary g c = true) :
    erosionApply g recv G dt z c = z c :=
  erode_fixpoint g recv G dt z (hB c hb) (cellCount g)

theorem not_interior_cond (g : Grid) {p : Idx g} (hb : isBoundary g p = true) :
    ¬(0 < p.1.val ∧ p.1.val < g.ySize - 1 ∧ 0 < p.2.val ∧ p.2.val < g.xSize - 1) := by
  rw [isBoundary_iff] at hb
  rintro ⟨h1, h2, h3, h4⟩
  rcases hb with h | h | h | h <;> omega

theorem phaseX_boundary (g : Grid) (kd dt : ℚ) (z : Fld g) {p : Idx g}
    (hb : isBoundary g p = true) : phaseX g kd dt z p = z p := by
  rw [phaseX, if_neg (not_interior_cond g hb)]

theorem phaseY_boundary (g : Grid) (kd dt : ℚ) (z : Fld g) {p : Idx g}
    (hb : isBoundary g p = true) : phaseY g kd dt z p = z p := by
  rw [phaseY, if_neg (not_interior_cond g hb)]

theorem diffusionApply_boundary (g : Grid) (kd dt : ℚ) (z : Fld g) {p : Idx g}
    (hb : isBoundary g p = true) : diffusionApply g kd dt z p = z p := by
  rw [diffusionApply, phaseY_boundary g kd dt _ hb, phaseX_boundary g kd dt z hb]

theorem upliftApply_boundary (g : Grid) (u dt : ℚ) (z : Fld g) {p : Idx g}
    (hb : isBoundary g p = true) : upliftApply g u dt z p = z p := by
  rw [upliftApply]
  simp [hb]

theorem stepOnce_boundary (g : Grid) (kSp : ℚ) (m : ℕ) (kDiff uRate dt : ℚ)
    (z : Fld g) {c : Idx g} (hb : isBoundary g c = true) :
    stepOnce g kSp m kDiff uRate dt z c = z c := by
  rw [stepOnce]
  rw [upliftApply_boundary g uRate dt _ hb, diffusionApply_boundary g kDiff dt _ hb,
    erosionApply_boundary g (routeFlow g z) (routeFlow_bfix g z) _ dt z hb]

theorem partialRun_boundary (g : Grid) (kSp : ℚ) (m : ℕ) (kDiff uRate : ℚ)
    (ds : List ℚ) (z0 : Fld g) {c : Idx g} (hb : isBoundary g c = true) :
    partialRun g kSp m kDiff uRate ds z0 c = z0 c := by
  induction ds generalizing z0 with
  | nil => rfl
  | cons d tl ih =>
    show partialRun g kSp m kDiff uRate tl (stepOnce g kSp m kDiff uRate d z0) c = z0 c
    rw [ih (stepOnce g kSp m kDiff uRate d z0)]
    exact stepOnce_boundary g kSp m kDiff uRate d z0 hb

/-- C4: boundary (fixed-edge) cells keep exactly their initial elevation
through any number of steps, and through each of the erosion, diffusion and
uplift phases of the following step; only interior cells are ever
modified. -/
theorem c4_boundary_frame (g : Grid) (kSp : ℚ) (m : ℕ) (kDiff uRate dt : ℚ)
    (ds : List ℚ) (z0 : Fld g) (c : Idx g) (hb : isBoundary g c = true) :
    partialRun g kSp m kDiff uRate ds z0 c = z0 c ∧
    erosionApply g (routeFlow g (partialRun g kSp m kDiff uRate ds z0))
        (spowerG g (routeFlow g (partialRun g kSp m kDiff uRate ds z0)) kSp m) dt
        (partialRun g kSp m kDiff uRate ds z0) c = z0 c ∧
    diffusionApply g kDiff dt
        (erosionApply g (routeFlow g (partialRun g kSp m kDiff uRate ds z0))
          (spowerG g (routeFlow g (partialRun g kSp m kDiff uRate ds z0)) kSp m) dt
          (partialRun g kSp m kDiff uRate ds z0)) c = z0 c ∧
    upliftApply g uRate dt
        (diffusionApply g kDiff dt
          (erosionApply g (routeFlow g (partialRun g kSp m kDiff uRate ds z0))
            (spowerG g (routeFlow g (partialRun g kSp m kDiff uRate ds z0)) kSp m) dt
            (partialRun g kSp m kDiff uRate ds z0))) c = z0 c := by
  have h0 : partialRun g kSp m kDiff uRate ds z0 c = z0 c :=
    partialRun_boundary g kSp m kDiff uRate ds z0 hb
  have h1 :
      erosionApply g (routeFlow g (partialRun g kSp m kDiff uRate ds z0))
        (spowerG g (routeFlow g (partialRun g kSp m kDiff uRate ds z0)) kSp m) dt
        (partialRun g kSp m kDiff uRate ds z0) c = z0 c := by
    rw [erosionApply_boundary g _ (routeFlow_bfix g _) _ dt _ hb]
    exact h0
  have h2 :
      diffusionApply g kDiff dt
        (erosionApply g (routeFlow g (partialRun g kSp m kDiff uRate ds z0))
          (spowerG g (routeFlow g (partialRun g kSp m kDiff uRate ds z0)) kSp m) dt
          (partialRun g kSp m kDiff uRate ds z0)) c = z0 c := by
    rw [diffusionApply_boundary g kDiff dt _ hb]
    exact h1
  refine ⟨h0, h1, h2, ?_⟩
  rw [upliftApply_boundary g uRate dt _ hb]
  exact h2

/-- Witness for C4 at a concrete 3×3 grid, corner cell (0,0). -/
theorem c4_boundary_frame_witness :
    partialRun grid3 1 1 1 1 [1, 1] z3 (cell3 0 0) = z3 (cell3 0 0) :=
  (c4_boundary_frame grid3 1 1 1 1 1 [1, 1] z3 (cell3 0 0) (by decide)).1

/-! ## The tridiagonal solver at zero diffusivity, and the uplift-only run -/

theorem thomasFwd_zero (ds : List ℚ) :
    ∀ cp dp : ℚ, thomasFwd 0 1 0 ds cp dp = ds.map (fun d => ((0 : ℚ), d)) := by
  induction ds with
  | nil => intro cp dp; rfl
  | cons d tl ih =>
    intro cp dp
    simp only [thomasFwd, List.map, zero_mul, sub_zero, zero_div, div_one]
    rw [ih]

theorem backSub_zero (ds : List ℚ) :
    backSub (ds.map (fun d => ((0 : ℚ), d))) = ds := by
  induction ds with
  | nil => rfl
  | cons d tl ih =>
    simp only [List.map, backSub]
    rw [ih]
    cases tl with
    | nil => rfl
    | cons x xs => simp [backCons]

theorem thomas_zero (ds : List ℚ) : thomas 0 1 0 ds = ds := by
  rw [thomas, thomasFwd_zero, backSub_zero]

theorem rXc_zero (g : Grid) (dt : ℚ) : rXc g 0 dt = 0 := by
  simp [rXc]

theorem rYc_zero (g : Grid) (dt : ℚ) : rYc g 0 dt = 0 := by
  simp [rYc]

theorem rowRhs_zero (g : Grid) (dt : ℚ) (z : Fld g) (i : ℕ) :
    rowRhs g 0 dt z i = (List.range (g.xSize - 2)).map (fun t => zAt g z i (t + 1)) := by
  simp [rowRhs, rXc_zero]

theorem colRhs_zero (g : Grid) (dt : ℚ) (z : Fld g) (j : ℕ) :
    colRhs g 0 dt z j = (List.range (g.ySize - 2)).map (fun t => zAt g z (t + 1) j) := by
  simp [colRhs, rYc_zero]

theorem getD_range_map (f : ℕ → ℚ) (n k : ℕ) (hk : k < n) :
    ((List.range n).map f).getD k 0 = f k := by
  rw [List.getD_eq_getElem _ _ (by simpa using hk)]
  rw [List.getElem_map]
  congr 1
  simp

theorem zAt_val (g : Grid) (z : Fld g) (p : Idx g) :
    zAt g z p.1.val p.2.val = z p := by
  rw [zAt, dif_pos ⟨p.1.isLt, p.2.isLt⟩]

theorem phaseX_zero (g : Grid) (dt : ℚ) (z : Fld g) : phaseX g 0 dt z = z := by
  funext p
  rw [phaseX]
  by_cases hcond : 0 < p.1.val ∧ p.1.val < g.ySize - 1 ∧ 0 < p.2.val ∧
      p.2.val < g.xSize - 1
  · rw [if_pos hcond, rXc_zero, rowRhs_zero, neg_zero, mul_zero, add_zero,
      thomas_zero,
      getD_range_map _ _ _ (show p.2.val - 1 < g.xSize - 2 by omega),
      show p.2.val - 1 + 1 = p.2.val by omega]
    exact zAt_val g z p
  · rw [if_neg hcond]

theorem phaseY_zero (g : Grid) (dt : ℚ) (z : Fld g) : phaseY g 0 dt z = z := by
  funext p
  rw [phaseY]
  by_cases hcond : 0 < p.1.val ∧ p.1.val < g.ySize - 1 ∧ 0 < p.2.val ∧
      p.2.val < g.xSize - 1
  · rw [if_pos hcond, rYc_zero, colRhs_zero, neg_zero, mul_zero, add_zero,
      thomas_zero,
      getD_range_map _ _ _ (show p.1.val - 1 < g.ySize - 2 by omega),
      show p.1.val - 1 + 1 = p.1.val by omega]
    exact zAt_val g z p
  · rw [if_neg hcond]

theorem diffusionApply_zero (g : Grid) (dt : ℚ) (z : Fld g) :
    diffusionApply g 0 dt z = z := by
  rw [diffusionApply, phaseX_zero, phaseY_zero]

theorem erode_zero (g : Grid) (recv : Idx g → Idx g) (G : Idx g → ℚ)
    (hG : ∀ c, G c = 0) (dt : ℚ) (z : Fld g) :
    ∀ (k : ℕ) (c : Idx g), erode g recv G dt z k c = z c := by
  intro k
  induction k with
  | zero => intro c; rfl
  | succ k ih =>
    intro c
    by_cases hc : recv c = c
    · simp [erode, hc]
    · simp only [erode, if_neg hc, hG, ih]
      norm_num

theorem erosionApply_zero_coef (g : Grid) (recv : Idx g → Idx g) (m : ℕ)
    (dt : ℚ) (z : Fld g) :
    erosionApply g recv (spowerG g recv 0 m) dt z = z :=
  funext fun c =>
    erode_zero g recv _ (fun c => by simp [spowerG]) dt z (cellCount g) c

theorem stepOnce_uplift_only (g : Grid) (m : ℕ) (uRate dt : ℚ) (z : Fld g) :
    stepOnce g 0 m 0 uRate dt z =
      fun c => if isBoundary g c = true then z c else z c + uRate * dt := by
  funext c
  rw [stepOnce, erosionApply_zero_coef, diffusionApply_zero]
  rfl

theorem stepOnce_diffusion_only (g : Grid) (m : ℕ) (kd dt : ℚ) (z : Fld g) :
    stepOnce g 0 m kd 0 dt z = diffusionApply g kd dt z := by
  funext c
  rw [stepOnce, erosionApply_zero_coef]
  show upliftApply g 0 dt (diffusionApply g kd dt z) c = _
  rw [upliftApply]
  simp

theorem partialRun_zero (g : Grid) (m : ℕ) (uRate : ℚ) (ds : List ℚ)
    (z0 : Fld g) (c : Idx g) :
    partialRun g 0 m 0 uRate ds z0 c =
      z0 c + (if isBoundary g c = true then 0 else uRate * ds.sum) := by
  induction ds generalizing z0 with
  | nil =>
    show z0 c = z0 c + _
    cases hb : isBoundary g c <;> simp [hb]
  | cons d tl ih =>
    show partialRun g 0 m 0 uRate tl (stepOnce g 0 m 0 uRate d z0) c = _
    rw [ih]
    simp only [stepOnce_uplift_only]
    cases hb : isBoundary g c <;> simp [hb, List.sum_cons] <;> ring

theorem stepSizes_sum (total dt : ℚ) : (stepSizes total dt).sum = total := by
  rw [stepSizes]
  rw [List.sum_append, List.sum_replicate, List.sum_cons, List.sum_nil]
  rw [nsmul_eq_mul]
  ring

theorem runModel_elevation (g : Grid) (kSp : ℚ) (m : ℕ) (kDiff uRate dt total : ℚ)
    (z0 : Fld g) :
    (runModel g kSp m kDiff uRate dt total z0).elevation =
      partialRun g kSp m kDiff uRate (stepSizes total dt) z0 := rfl

theorem runModel_stepsTaken (g : Grid) (kSp : ℚ) (m : ℕ) (kDiff uRate dt total : ℚ)
    (z0 : Fld g) :
    (runModel g kSp m kDiff uRate dt total z0).stepsTaken =
      (stepSizes total dt).length := rfl

theorem runModel_state_completed (g : Grid) (kSp : ℚ) (m : ℕ)
    (kDiff uRate dt total : ℚ) (z0 : Fld g) :
    (runModel g kSp m kDiff uRate dt total z0).state = RunState.Completed := by
  show (if total ≤ (stepSizes total dt).sum then RunState.Completed
    else RunState.Running) = RunState.Completed
  rw [stepSizes_sum, if_pos le_rfl]

/-- C5: with `k_sp = 0` and `k_diff = 0`, after any steps every interior
cell's elevation is its initial value plus `u_rate` times the elapsed
simulation time (the full run elapses exactly `time_total`), and every
boundary cell is exactly unchanged. -/
theorem c5_uplift_only_run (g : Grid) (m : ℕ) (uRate dt total : ℚ)
    (ds : List ℚ) (z0 : Fld g) (c : Idx g) :
    (isBoundary g c = false →
      partialRun g 0 m 0 uRate ds z0 c = z0 c + uRate * ds.sum ∧
      (runModel g 0 m 0 uRate dt total z0).elevation c = z0 c + uRate * total) ∧
    (isBoundary g c = true →
      partialRun g 0 m 0 uRate ds z0 c = z0 c ∧
      (runModel g 0 m 0 uRate dt total z0).elevation c = z0 c) := by
  have hrun : (runModel g 0 m 0 uRate dt total z0).elevation c =
      z0 c + (if isBoundary g c = true then 0 else uRate * total) := by
    rw [runModel_elevation, partialRun_zero, stepSizes_sum]
  constructor
  · intro hb
    rw [partialRun_zero, hrun]
    simp [hb]
  · intro hb
    rw [partialRun_zero, hrun]
    simp [hb]

/-- Witness for C5 at a concrete 3×3 grid, interior cell, two unit steps
with uplift rate 2. -/
theorem c5_uplift_only_run_witness :
    partialRun grid3 0 0 0 2 [1, 1] z3 (cell3 1 1) =
        z3 (cell3 1 1) + 2 * [(1 : ℚ), 1].sum ∧
      (runModel grid3 0 0 0 2 1 5 z3).elevation (cell3 1 1) = z3 (cell3 1 1) + 2 * 5 :=
  (c5_uplift_only_run grid3 0 2 1 5 [1, 1] z3 (cell3 1 1)).1 (by decide)

set_option maxHeartbeats 1600000 in
theorem diffusion_peak_eval : diffusionApply grid5 (1/10) 1 z5 = z5after := by
  funext p
  obtain ⟨⟨i, hi⟩, ⟨j, hj⟩⟩ := p
  have hi5 : i < 5 := hi
  have hj5 : j < 5 := hj
  interval_cases i <;> interval_cases j <;>
    norm_num [diffusionApply, phaseY, phaseX, colRhs, rowRhs, rYc, rXc, zAt, z5,
      grid5, z5after, thomas, thomasFwd, backSub, backCons, List.range_succ]

set_option maxHeartbeats 1600000 in
theorem diffusion_exchange_eval :
    diffusionExchange grid5 (1/10) 1 z5 = 1410 / 5041 := by
  have hD2 : phaseY grid5 (1/10) 1 (phaseX grid5 (1/10) 1 z5) = z5after :=
    diffusion_peak_eval
  rw [diffusionExchange]
  simp only [xExchange, yExchange, hD2]
  norm_num [phaseX, rowRhs, rXc, rYc, zAt, z5, grid5, z5after, thomas, thomasFwd,
    backSub, backCons, List.range_succ]

theorem totalMass_z5after : totalMass grid5 z5after = 49000 / 5041 := by
  norm_num [totalMass, zAt, z5after, grid5, List.range_succ]

theorem totalMass_z5 : totalMass grid5 z5 = 10 := by
  norm_num [totalMass, zAt, z5, grid5, List.range_succ]

/-- C6: on the 5×5 unit grid with a single peak of 10 at (2,2),
`k_diff = 0.1`, `k_sp = 0`, `u_rate = 0`, one step with `dt = 1` strictly
lowers the peak, strictly raises its four orthogonal neighbours, and
conserves total elevation mass up to the exchange with the fixed boundary
cells. -/
theorem c6_diffusion_peak_scenario (m : ℕ) :
    stepOnce grid5 0 m (1/10) 0 1 z5 (cell5 2 2) < z5 (cell5 2 2) ∧
    z5 (cell5 1 2) < stepOnce grid5 0 m (1/10) 0 1 z5 (cell5 1 2) ∧
    z5 (cell5 3 2) < stepOnce grid5 0 m (1/10) 0 1 z5 (cell5 3 2) ∧
    z5 (cell5 2 1) < stepOnce grid5 0 m (1/10) 0 1 z5 (cell5 2 1) ∧
    z5 (cell5 2 3) < stepOnce grid5 0 m (1/10) 0 1 z5 (cell5 2 3) ∧
    totalMass grid5 (stepOnce grid5 0 m (1/10) 0 1 z5) +
        diffusionExchange grid5 (1/10) 1 z5 = totalMass grid5 z5 := by
  rw [stepOnce_diffusion_only, diffusion_peak_eval]
  refine ⟨?_, ?_, ?_, ?_, ?_, ?_⟩
  · norm_num [z5after, z5, cell5]
  · norm_num [z5after, z5, cell5]
  · norm_num [z5after, z5, cell5]
  · norm_num [z5after, z5, cell5]
  · norm_num [z5after, z5, cell5]
  · rw [totalMass_z5after, diffusion_exchange_eval, totalMass_z5]
    norm_num

/-- C7: construction fails with a `ConfigurationError` exactly when a grid
dimension is below 3 or a spacing is nonpositive; once construction
succeeds, the run is total — no error can be raised mid-run. -/
theorem c7_configuration_error_iff (x y : ℕ) (dx dy kSp : ℚ) (m : ℕ)
    (kDiff uRate dt total : ℚ) (z0 : ℕ → ℕ → ℚ) :
    ((∃ e, constructGrid x y dx dy = Except.error e) ↔
      x < 3 ∨ y < 3 ∨ dx ≤ 0 ∨ dy ≤ 0) ∧
    (∀ gg, constructGrid x y dx dy = Except.ok gg →
      ∃ res, runChecked x y dx dy kSp m kDiff uRate dt total z0 = Except.ok res) := by
  constructor
  · by_cases hc : 3 ≤ x ∧ 3 ≤ y ∧ 0 < dx ∧ 0 < dy
    · rw [constructGrid, if_pos hc]
      constructor
      · rintro ⟨e, he⟩
        exact absurd he (by simp)
      · intro h
        exfalso
        rcases h with h | h | h | h
        · omega
        · omega
        · exact absurd hc.2.2.1 (not_lt.mpr h)
        · exact absurd hc.2.2.2 (not_lt.mpr h)
    · rw [constructGrid, if_neg hc]
      constructor
      · intro _
        by_contra hno
        push_neg at hno
        exact hc ⟨by omega, by omega, hno.2.2.1, hno.2.2.2⟩
      · intro _
        exact ⟨ConfigurationError.invalidGrid, rfl⟩
  · intro gg hok
    refine ⟨⟨gg, runModel gg kSp m kDiff uRate dt total (restrictField gg z0)⟩, ?_⟩
    rw [runChecked, hok]
    rfl

/-- Witness for C7: a 2-column grid is rejected; a valid 5×5 grid runs to a
result with no error. -/
theorem c7_configuration_error_iff_witness :
    (∃ e, constructGrid 2 5 1 1 = Except.error e) ∧
    (∃ res, runChecked 5 5 1 1 0 0 0 0 1 1 (fun _ _ => 0) = Except.ok res) :=
  ⟨(c7_configuration_error_iff 2 5 1 1 0 0 0 0 1 1 (fun _ _ => 0)).1.mpr
      (Or.inl (by norm_num)),
   (c7_configuration_error_iff 5 5 1 1 0 0 0 0 1 1 (fun _ _ => 0)).2
      ⟨5, 5, 1, 1⟩ rfl⟩

theorem toArray2D_shape (g : Grid) (z : Fld g) :
    (toArray2D g z).length = g.ySize ∧
      ∀ row ∈ toArray2D g z, row.length = g.xSize := by
  constructor
  · simp [toArray2D]
  · intro row hrow
    rw [toArray2D, List.mem_map] at hrow
    obtain ⟨i, _, rfl⟩ := hrow
    simp

/-- C8 (amended): every completed run returns a 2D array of shape
`(y_size, x_size)`; for the reference scenario (601×401 grid, `dt = 1e5`,
`total = 1e7`) the run completes in state `Completed` after 100 steps, the
final array has 401 rows of 601 columns, and every boundary cell still holds
its initial value. -/
theorem c8_run_output (g : Grid) (kSp : ℚ) (m : ℕ) (kDiff uRate dt total : ℚ)
    (z0 : Fld g) :
    ((toArray2D g ((runModel g kSp m kDiff uRate dt total z0).elevation)).length =
        g.ySize ∧
      ∀ row ∈ toArray2D g ((runModel g kSp m kDiff uRate dt total z0).elevation),
        row.length = g.xSize) ∧
    (∀ init : Fld gridBig,
      (runFastscapeModel kSp m kDiff uRate 601 401 200 100000 10000000
          init).stepsTaken = 100 ∧
      (runFastscapeModel kSp m kDiff uRate 601 401 200 100000 10000000
          init).state = RunState.Completed ∧
      (toArray2D gridBig ((runFastscapeModel kSp m kDiff uRate 601 401 200 100000
          10000000 init).elevation)).length = 401 ∧
      ∀ c : Idx gridBig, isBoundary gridBig c = true →
        (runFastscapeModel kSp m kDiff uRate 601 401 200 100000 10000000
          init).elevation c = init c) := by
  refine ⟨toArray2D_shape g _, fun init => ⟨?_, ?_, ?_, ?_⟩⟩
  · show (stepSizes 10000000 100000).length = 100
    have hc : ⌈(10000000 : ℚ) / 100000⌉ = (100 : ℤ) := by norm_num
    simp [stepSizes, hc]
  · exact runModel_state_completed gridBig kSp m kDiff uRate 100000 10000000 init
  · exact (toArray2D_shape gridBig _).1
  · intro c hb
    show partialRun gridBig kSp m kDiff uRate (stepSizes 10000000 100000) init c =
      init c
    exact partialRun_boundary gridBig kSp m kDiff uRate _ init hb

/-- Witness for C8 at concrete inputs. -/
theorem c8_run_output_witness :
    (runFastscapeModel 0 0 0 0 601 401 200 100000 10000000
        (fun _ => 0)).stepsTaken = 100 ∧
      (runFastscapeModel 0 0 0 0 601 401 200 100000 10000000
        (fun _ => 0)).elevation (cellBig 0 0) = 0 :=
  ⟨((c8_run_output gridBig 0 0 0 0 1 1 (fun _ => 0)).2 (fun _ => 0)).1,
   ((c8_run_output gridBig 0 0 0 0 1 1 (fun _ => 0)).2 (fun _ => 0)).2.2.2
      (cellBig 0 0) (by decide)⟩

/-- Counterexample to C8 as stated: the reference scenario takes 100 steps
(`1e7 / 1e5`), not 10. -/
theorem c8_ten_steps_counterexample :
    (runFastscapeModel (1/100000) 0 0 (1/1000) 601 401 200 100000 10000000
        (fun _ => 0)).stepsTaken ≠ 10 := by
  show (stepSizes 10000000 100000).length ≠ 10
  have hc : ⌈(10000000 : ℚ) / 100000⌉ = (100 : ℤ) := by norm_num
  simp [stepSizes, hc]

/-- C9 (amended): the model is deterministic given its inputs and the
initial (randomly drawn) elevation field: two runs with identical argument
values and the same initial field return identical results. -/
theorem c9_deterministic_given_init (kSp : ℚ) (m : ℕ) (kDiff uRate : ℚ)
    (xs ys : ℕ) (sp ts tt : ℚ) (init1 init2 : Fld ⟨xs, ys, sp, sp⟩)
    (h : init1 = init2) :
    runFastscapeModel kSp m kDiff uRate xs ys sp ts tt init1 =
      runFastscapeModel kSp m kDiff uRate xs ys sp ts tt init2 := by
  rw [h]

/-- Witness for C9 (amended) at concrete inputs. -/
theorem c9_deterministic_given_init_witness :
    runFastscapeModel 0 0 0 0 3 3 1 1 1 (fun _ => 0) =
      runFastscapeModel 0 0 0 0 3 3 1 1 1 (fun _ => 0) :=
  c9_deterministic_given_init 0 0 0 0 3 3 1 1 1 (fun _ => 0) (fun _ => 0) rfl

/-- Counterexample to C9 as stated: the wrapper draws its initial topography
from an unseeded RNG, so two runs with identical argument values
(`k_sp, …, time_total`) can return different elevation fields — here two
admissible draws (the constant fields 0 and 1/2) are preserved verbatim by a
run with all process coefficients zero. -/
theorem c9_random_init_counterexample :
    (runFastscapeModel 0 0 0 0 3 3 1 1 1 (fun _ => 0)).elevation (cell3 1 1) = 0 ∧
    (runFastscapeModel 0 0 0 0 3 3 1 1 1 (fun _ => 1/2)).elevation (cell3 1 1) = 1/2 ∧
    (runFastscapeModel 0 0 0 0 3 3 1 1 1 (fun _ => 0)).elevation ≠
      (runFastscapeModel 0 0 0 0 3 3 1 1 1 (fun _ => 1/2)).elevation := by
  have hA : ∀ (init : Fld ⟨3, 3, 1, 1⟩) (c : Idx (⟨3, 3, 1, 1⟩ : Grid)),
      (runFastscapeModel 0 0 0 0 3 3 1 1 1 init).elevation c = init c := by
    intro init c
    show partialRun ⟨3, 3, 1, 1⟩ 0 0 0 0 (stepSizes 1 1) init c = init c
    rw [partialRun_zero]
    cases hb : isBoundary (⟨3, 3, 1, 1⟩ : Grid) c <;> simp [hb]
  refine ⟨hA _ _, hA _ _, ?_⟩
  intro h
  have h1 := congrFun h (cell3 1 1)
  rw [hA, hA] at h1
  norm_num at h1

/-- C10: the wrapper always passes `m_exp = 0.4` and `n_exp = 1` to the
engine; the engine interface declares those values as defaults and admits
other values. -/
theorem c10_spower_exponents (k_sp k_diff u_rate : ℚ) (xs ys : ℕ)
    (sp ts tt : ℚ) :
    (runFastscapeSetup k_sp k_diff u_rate xs ys sp ts tt).spower.m_exp = 0.4 ∧
    (runFastscapeSetup k_sp k_diff u_rate xs ys sp ts tt).spower.n_exp = 1 ∧
    (∀ k : ℚ, ({ k_coef := k } : SPowerConfig).m_exp = 0.4 ∧
      ({ k_coef := k } : SPowerConfig).n_exp = 1) ∧
    (∃ c : SPowerConfig, c.m_exp ≠ 0.4 ∧ c.n_exp ≠ 1) :=
  ⟨rfl, rfl, fun _ => ⟨rfl, rfl⟩,
   ⟨{ k_coef := 0, m_exp := 1, n_exp := 2 }, by norm_num, by norm_num⟩⟩

end Fastscape
